import Mathlib

/-!
Verification of the disk-space monitoring service of this repository
(file src/src/reporting/main.go, second compilation unit: the disk-space
monitor with its bounded in-memory time-series store, range queries,
Grafana projection layer and relative-time parser).

Conventions of the embedding:
* Go int64 values (Unix timestamps in seconds, durations in nanoseconds)
  are modelled as Lean Int; where the Go code can overflow 64-bit
  arithmetic, the wrap is made explicit through wrap64.
* The float64 usage-percent field never takes part in any arithmetic or
  comparison relevant to a claim (it is an opaque payload flowing into
  datapoint values), so it is modelled as an opaque integer payload.
* Go strings are modelled as List Char. The only place where the
  byte/rune distinction could matter is the final-character split in
  parseSimpleTime; the two models agree on the accept/reject verdict and
  on the parsed value, because a successful parse forces the last
  character to be the single-byte ASCII letter m, h or d.
-/

/-- Embeds type PartitionMetrics of the source. Total, Used, Free are
uint64 fields; UsagePercent is a float64 payload modelled opaquely as an
integer because no claim computes with it. -/
structure PartitionMetrics where
  Path : String
  Total : Nat
  Used : Nat
  Free : Nat
  UsagePercent : Int
  deriving DecidableEq

/-- Embeds type DiskMetrics of the source: a snapshot with a Unix-seconds
timestamp and the partition readings of one collection cycle. -/
structure DiskMetrics where
  Timestamp : Int
  Partitions : List PartitionMetrics
  deriving DecidableEq

/-- Embeds type MetricsStore of the source: the slice of snapshots plus
the capacity bound maxSize (an int in Go, initialized to 60 * 24). -/
structure MetricsStore where
  data : List DiskMetrics
  maxSize : Nat
  deriving DecidableEq

/-- The store as created at process start: empty data with the given
capacity (the source uses capacity 60 * 24 = 1440). -/
def mkStore (cap : Nat) : MetricsStore := { data := [], maxSize := cap }

/-- Embeds MetricsStore.add: append the snapshot, then drop the first
element when the length exceeds maxSize (s.data = s.data[1:]). -/
def MetricsStore.add (s : MetricsStore) (m : DiskMetrics) : MetricsStore :=
  let d := s.data ++ [m]
  if d.length > s.maxSize then { data := d.tail, maxSize := s.maxSize }
  else { data := d, maxSize := s.maxSize }

/-- The membership test of MetricsStore.getRange, with Go operator
precedence made explicit: (ts.After(from) && ts.Before(to)) ||
ts.Equal(from) || ts.Equal(to). All instants compare at second
resolution, hence plain integer comparison. -/
def inRange (fromT toT ts : Int) : Bool :=
  (decide (fromT < ts) && decide (ts < toT)) || decide (ts = fromT) || decide (ts = toT)

/-- Embeds MetricsStore.getRange: keep, in stored order, the snapshots
whose timestamp passes the inRange test. -/
def MetricsStore.getRange (s : MetricsStore) (fromT toT : Int) : List DiskMetrics :=
  s.data.filter (fun m => inRange fromT toT m.Timestamp)

/-- A whole sequence of appends, oldest first, as iterated add. -/
def appendAll (s : MetricsStore) (ms : List DiskMetrics) : MetricsStore :=
  ms.foldl MetricsStore.add s

theorem add_maxSize (s : MetricsStore) (m : DiskMetrics) :
    (s.add m).maxSize = s.maxSize := by
  unfold MetricsStore.add
  dsimp only
  split <;> rfl

theorem add_data_eq (s : MetricsStore) (m : DiskMetrics) :
    (s.add m).data =
      if s.data.length + 1 > s.maxSize then (s.data ++ [m]).tail else s.data ++ [m] := by
  unfold MetricsStore.add
  by_cases h : s.data.length + 1 > s.maxSize
  · simp [List.length_append, h]
  · simp [List.length_append, h]

theorem add_length_le (s : MetricsStore) (m : DiskMetrics)
    (h : s.data.length ≤ s.maxSize) : (s.add m).data.length ≤ s.maxSize := by
  rw [add_data_eq]
  by_cases hc : s.data.length + 1 > s.maxSize
  · simp [hc, List.length_tail, List.length_append]
    omega
  · simp [hc, List.length_append]
    omega

theorem appendAll_maxSize (ms : List DiskMetrics) : ∀ (s : MetricsStore),
    (appendAll s ms).maxSize = s.maxSize := by
  induction ms with
  | nil => intro s; rfl
  | cons m rest ih =>
    intro s
    have : appendAll s (m :: rest) = appendAll (s.add m) rest := rfl
    rw [this, ih, add_maxSize]

theorem appendAll_data (ms : List DiskMetrics) : ∀ (s : MetricsStore),
    s.data.length ≤ s.maxSize →
    (appendAll s ms).data =
      (s.data ++ ms).drop (s.data.length + ms.length - s.maxSize) := by
  induction ms with
  | nil =>
    intro s h
    have hz : s.data.length - s.maxSize = 0 := by omega
    simp [appendAll, hz]
  | cons m rest ih =>
    intro s h
    have hstep : appendAll s (m :: rest) = appendAll (s.add m) rest := rfl
    have hmax : (s.add m).maxSize = s.maxSize := add_maxSize s m
    rw [hstep]
    by_cases hc : s.data.length + 1 > s.maxSize
    · -- at capacity: the oldest element is evicted
      have hlen : s.data.length = s.maxSize := by omega
      have hdata : (s.add m).data = List.drop 1 (s.data ++ [m]) := by
        rw [add_data_eq, if_pos hc, ← List.drop_one]
      have hle2 : (s.add m).data.length ≤ (s.add m).maxSize := by
        rw [hmax, hdata]
        simp
        omega
      rw [ih (s.add m) hle2, hmax, hdata]
      have hlen2 : (List.drop 1 (s.data ++ [m])).length = s.maxSize := by
        simp
        omega
      rw [hlen2]
      have hidx : s.maxSize + rest.length - s.maxSize = rest.length := by omega
      rw [hidx]
      have hsplit : List.drop 1 (s.data ++ [m]) ++ rest
          = List.drop 1 ((s.data ++ [m]) ++ rest) :=
        (List.drop_append_of_le_length (by simp)).symm
      rw [hsplit, List.drop_drop]
      have hidx2 : s.data.length + (m :: rest).length - s.maxSize = 1 + rest.length := by
        simp
        omega
      rw [hidx2]
      congr 1
      simp
    · -- below capacity: plain append
      have hdata : (s.add m).data = s.data ++ [m] := by
        rw [add_data_eq, if_neg hc]
      have hle2 : (s.add m).data.length ≤ (s.add m).maxSize := by
        rw [hmax, hdata]
        simp
        omega
      rw [ih (s.add m) hle2, hmax, hdata]
      have hlen2 : (s.data ++ [m]).length = s.data.length + 1 := by simp
      rw [hlen2]
      have hidx : s.data.length + 1 + rest.length - s.maxSize
          = s.data.length + (m :: rest).length - s.maxSize := by
        simp
        omega
      rw [hidx]
      congr 1
      simp

theorem inRange_of_between {fromT toT ts : Int} (h1 : fromT ≤ ts) (h2 : ts ≤ toT) :
    inRange fromT toT ts = true := by
  simp only [inRange, Bool.or_eq_true, Bool.and_eq_true, decide_eq_true_eq]
  omega

/-- C1: for every sequence of more than capacity appends into an initially
empty store, a range query covering every appended timestamp returns
exactly the most recent capacity snapshots in append order; additionally,
add preserves the bound count less or equal capacity, and eviction drops
exactly the oldest snapshot (and only happens at capacity). -/
theorem C1_store_fifo_bounded :
    (∀ (cap : Nat) (ms : List DiskMetrics) (fromT toT : Int),
        ms.length > cap →
        (∀ m ∈ ms, fromT ≤ m.Timestamp ∧ m.Timestamp ≤ toT) →
        (appendAll (mkStore cap) ms).getRange fromT toT = ms.drop (ms.length - cap)
          ∧ (ms.drop (ms.length - cap)).length = cap)
    ∧ (∀ (s : MetricsStore) (m : DiskMetrics),
        s.data.length ≤ s.maxSize → (s.add m).data.length ≤ s.maxSize)
    ∧ (∀ (s : MetricsStore) (m : DiskMetrics),
        s.data.length = s.maxSize → 0 < s.maxSize → (s.add m).data = s.data.tail ++ [m])
    ∧ (∀ (s : MetricsStore) (m : DiskMetrics),
        s.data.length < s.maxSize → (s.add m).data = s.data ++ [m]) := by
  refine ⟨?_, ?_, ?_, ?_⟩
  · intro cap ms fromT toT hlen hcover
    have hdata : (appendAll (mkStore cap) ms).data = ms.drop (ms.length - cap) := by
      have := appendAll_data ms (mkStore cap) (by simp [mkStore])
      simpa [mkStore] using this
    constructor
    · unfold MetricsStore.getRange
      rw [hdata]
      rw [List.filter_eq_self]
      intro m hm
      have hmem : m ∈ ms := List.mem_of_mem_drop hm
      exact inRange_of_between (hcover m hmem).1 (hcover m hmem).2
    · simp [List.length_drop]
      omega
  · exact add_length_le
  · intro s m h1 h2
    have hc : s.data.length + 1 > s.maxSize := by omega
    obtain ⟨a, t, hd⟩ : ∃ a t, s.data = a :: t := by
      cases hdd : s.data with
      | nil =>
        exfalso
        rw [hdd] at h1
        simp at h1
        omega
      | cons a t => exact ⟨a, t, rfl⟩
    rw [add_data_eq, if_pos hc, hd]
    rfl
  · intro s m h
    have hc : ¬ (s.data.length + 1 > s.maxSize) := by omega
    rw [add_data_eq, if_neg hc]

theorem C1_store_fifo_bounded_witness :
    (appendAll (mkStore 2) [⟨1, []⟩, ⟨2, []⟩, ⟨3, []⟩]).getRange 0 10
      = [⟨2, []⟩, ⟨3, []⟩] := by
  have h := C1_store_fifo_bounded.1 2 [⟨1, []⟩, ⟨2, []⟩, ⟨3, []⟩] 0 10
    (by decide) (by decide)
  exact h.1.trans rfl

theorem inRange_eq_interval {fromT toT : Int} (h : fromT ≤ toT) (ts : Int) :
    inRange fromT toT ts = decide (fromT ≤ ts ∧ ts ≤ toT) := by
  by_cases hm : fromT ≤ ts ∧ ts ≤ toT
  · rw [decide_eq_true hm]
    exact inRange_of_between hm.1 hm.2
  · rw [decide_eq_false hm]
    cases hir : inRange fromT toT ts
    · rfl
    · exfalso
      have hx := hir
      simp only [inRange, Bool.or_eq_true, Bool.and_eq_true, decide_eq_true_eq] at hx
      omega

/-- C2 counterexample: a store whose snapshots are not in timestamp order.
getRange keeps the stored order, so the result contains exactly the
snapshots inside the closed interval but is not ascending by capturedAt. -/
theorem C2_range_order_counterexample :
    MetricsStore.getRange ⟨[⟨5, []⟩, ⟨3, []⟩], 1440⟩ 0 10 = [⟨5, []⟩, ⟨3, []⟩]
      ∧ ¬ List.Pairwise (fun a b : DiskMetrics => a.Timestamp ≤ b.Timestamp)
          (MetricsStore.getRange ⟨[⟨5, []⟩, ⟨3, []⟩], 1440⟩ 0 10) := by
  constructor
  · decide
  · decide

/-- C2 (amended): when the stored snapshots are in nondecreasing
capturedAt order, which every reachable store of the program has, getRange
with from less or equal to returns exactly the stored snapshots whose
capturedAt lies in the closed interval, in nondecreasing capturedAt order,
and returns the empty list when no snapshot falls in the interval. -/
theorem C2_range_filter_sorted (s : MetricsStore) (fromT toT : Int)
    (hsorted : List.Pairwise (fun a b : DiskMetrics => a.Timestamp ≤ b.Timestamp) s.data)
    (hft : fromT ≤ toT) :
    s.getRange fromT toT
        = s.data.filter (fun m => decide (fromT ≤ m.Timestamp ∧ m.Timestamp ≤ toT))
      ∧ List.Pairwise (fun a b : DiskMetrics => a.Timestamp ≤ b.Timestamp)
          (s.getRange fromT toT)
      ∧ ((∀ m ∈ s.data, ¬ (fromT ≤ m.Timestamp ∧ m.Timestamp ≤ toT)) →
          s.getRange fromT toT = []) := by
  have hcong : s.getRange fromT toT
      = s.data.filter (fun m => decide (fromT ≤ m.Timestamp ∧ m.Timestamp ≤ toT)) := by
    unfold MetricsStore.getRange
    apply List.filter_congr
    intro m _
    exact inRange_eq_interval hft m.Timestamp
  refine ⟨hcong, ?_, ?_⟩
  · exact hsorted.filter _
  · intro hnone
    rw [hcong]
    rw [List.filter_eq_nil_iff]
    intro m hm
    simp only [decide_eq_true_eq]
    exact hnone m hm

theorem C2_range_filter_sorted_witness :
    MetricsStore.getRange ⟨[⟨1, []⟩, ⟨4, []⟩], 1440⟩ 0 2 = [⟨1, []⟩] := by
  have h := C2_range_filter_sorted ⟨[⟨1, []⟩, ⟨4, []⟩], 1440⟩ 0 2 (by decide) (by decide)
  exact h.1.trans (by decide)

/-- Every store the program can build satisfies the sortedness
hypothesis of the amended range-query property: appending any sequence
of snapshots whose timestamps are nondecreasing in append order (the
collector stamps each snapshot with the clock at capture time) into the
initially empty store leaves the stored data in nondecreasing timestamp
order, eviction included. -/
theorem reachable_store_sorted (cap : Nat) (ms : List DiskMetrics)
    (hms : List.Pairwise (fun a b : DiskMetrics => a.Timestamp ≤ b.Timestamp) ms) :
    List.Pairwise (fun a b : DiskMetrics => a.Timestamp ≤ b.Timestamp)
      (appendAll (mkStore cap) ms).data := by
  have hdata := appendAll_data ms (mkStore cap) (by simp [mkStore])
  simp [mkStore] at hdata
  change List.Pairwise (fun a b : DiskMetrics => a.Timestamp ≤ b.Timestamp)
    (appendAll { data := [], maxSize := cap } ms).data
  rw [hdata]
  exact List.Pairwise.sublist (List.drop_sublist _ _) hms

/-- C7: widening the query interval never removes a returned snapshot.
The hypotheses state that the original pair is an interval (from less or
equal to) and that the second interval contains the first. -/
theorem C7_range_monotone (s : MetricsStore) (fromT toT fromT' toT' : Int) (m : DiskMetrics)
    (h1 : fromT' ≤ fromT) (h2 : fromT ≤ toT) (h3 : toT ≤ toT')
    (hm : m ∈ s.getRange fromT toT) : m ∈ s.getRange fromT' toT' := by
  unfold MetricsStore.getRange at hm ⊢
  rcases List.mem_filter.mp hm with ⟨hmem, hpred⟩
  refine List.mem_filter.mpr ⟨hmem, ?_⟩
  simp only [inRange, Bool.or_eq_true, Bool.and_eq_true, decide_eq_true_eq] at hpred ⊢
  omega

theorem C7_range_monotone_witness :
    (⟨1, []⟩ : DiskMetrics) ∈ MetricsStore.getRange ⟨[⟨1, []⟩], 10⟩ 0 2 :=
  C7_range_monotone ⟨[⟨1, []⟩], 10⟩ 1 1 0 2 ⟨1, []⟩
    (by decide) (by decide) (by decide) (by decide)

/-! ## Relative-time parser (parseSimpleTime) -/

/-- Signed 64-bit wrap, making Go int64 overflow explicit. -/
def wrap64 (x : Int) : Int := (x + 2 ^ 63) % 2 ^ 64 - 2 ^ 63

/-- Go integer division truncates toward zero. -/
def goQuo (a b : Int) : Int := Int.tdiv a b

/-- time.Minute in nanoseconds. -/
def Minute : Int := 60000000000

/-- time.Hour in nanoseconds. -/
def Hour : Int := 3600000000000

/-- The Unicode White_Space property, which is exactly what
unicode.IsSpace (hence strings.TrimSpace) tests. -/
def goIsSpace (c : Char) : Bool :=
  decide (c.toNat = 9 ∨ c.toNat = 10 ∨ c.toNat = 11 ∨ c.toNat = 12 ∨ c.toNat = 13 ∨
    c.toNat = 32 ∨ c.toNat = 133 ∨ c.toNat = 160 ∨ c.toNat = 5760 ∨
    (8192 ≤ c.toNat ∧ c.toNat ≤ 8202) ∨ c.toNat = 8232 ∨ c.toNat = 8233 ∨
    c.toNat = 8239 ∨ c.toNat = 8287 ∨ c.toNat = 12288)

/-- strings.TrimSpace: drop White_Space characters from both ends. -/
def goTrimSpace (s : List Char) : List Char :=
  ((s.dropWhile goIsSpace).reverse.dropWhile goIsSpace).reverse

/-- An ASCII decimal digit, as the byte test of strconv. -/
def isDecDigit (c : Char) : Bool := decide (48 ≤ c.toNat ∧ c.toNat ≤ 57)

/-- Value of a digit string, most significant first. -/
def digitsVal (cs : List Char) : Nat :=
  cs.foldl (fun a c => a * 10 + (c.toNat - 48)) 0

/-- The acceptance condition of strconv.Atoi, extensionally: an optional
single sign followed by one or more decimal digits whose value fits the
signed 64-bit range (the negative bound being 2 to the 63). -/
def atoiAccepts (cs : List Char) : Bool :=
  match cs with
  | [] => false
  | c :: r =>
    if c = '-' then !r.isEmpty && r.all isDecDigit && decide (digitsVal r ≤ 2 ^ 63)
    else if c = '+' then !r.isEmpty && r.all isDecDigit && decide (digitsVal r ≤ 2 ^ 63 - 1)
    else (c :: r).all isDecDigit && decide (digitsVal (c :: r) ≤ 2 ^ 63 - 1)

/-- The value strconv.Atoi returns on an accepted input. -/
def atoiVal (cs : List Char) : Int :=
  match cs with
  | [] => 0
  | c :: r =>
    if c = '-' then -(digitsVal r : Int)
    else if c = '+' then (digitsVal r : Int)
    else (digitsVal (c :: r) : Int)

/-- Embeds strconv.Atoi extensionally: the parsed int64 on success, none
on a syntax or range error (the call site only distinguishes these two
outcomes). -/
def goAtoi (cs : List Char) : Option Int :=
  if atoiAccepts cs then some (atoiVal cs) else none

/-- Embeds parseSimpleTime: trim whitespace, reject the empty string,
split off the last character as the unit, Atoi the front, then dispatch
on the lowered unit. goToLowerAscii agrees with the strings.ToLower call
of the source on the accept set because no non-ASCII character lowers to
the ASCII letters m, h or d. Durations are int64 nanoseconds, with the
multiplications of the source wrapped at 64 bits. -/
def goToLowerAscii (c : Char) : Char :=
  if 'A' ≤ c ∧ c ≤ 'Z' then Char.ofNat (c.toNat + 32) else c

def parseSimpleTime (s : List Char) : Option Int :=
  match (goTrimSpace s).getLast? with
  | none => none
  | some unit =>
    match goAtoi ((goTrimSpace s).dropLast) with
    | none => none
    | some v =>
      if goToLowerAscii unit = 'm' then some (wrap64 (v * Minute))
      else if goToLowerAscii unit = 'h' then some (wrap64 (v * Hour))
      else if goToLowerAscii unit = 'd' then some (wrap64 (wrap64 (v * 24) * Hour))
      else none

/-- The failure criterion in the exact words of the claim: trimmed input
empty, or the portion before the final character is not one or more
decimal digits, or the final character is not m, h or d case-insensitively.
This is the claim side of the refinement comparison for C4. -/
def claimedFailCond (s : List Char) : Bool :=
  match (goTrimSpace s).getLast? with
  | none => true
  | some unit =>
    ! (!(goTrimSpace s).dropLast.isEmpty && (goTrimSpace s).dropLast.all isDecDigit
        && (decide (goToLowerAscii unit = 'm') || decide (goToLowerAscii unit = 'h')
            || decide (goToLowerAscii unit = 'd')))

/-- The failure criterion the code actually implements: trimmed input
empty, or the number portion rejected by Atoi (optional sign, one or more
digits, 64-bit range), or the lowered unit not m, h or d. -/
def codeFailCond (s : List Char) : Bool :=
  match (goTrimSpace s).getLast? with
  | none => true
  | some unit =>
    ! (atoiAccepts ((goTrimSpace s).dropLast)
        && (decide (goToLowerAscii unit = 'm') || decide (goToLowerAscii unit = 'h')
            || decide (goToLowerAscii unit = 'd')))

/-- C4 counterexample: on the input -5m the parser succeeds (Atoi accepts
a leading sign), while the stated criterion says it must fail because the
portion before the unit is not a string of digits. -/
theorem C4_parse_failure_counterexample :
    parseSimpleTime ("-5m".toList) = some (-300000000000)
      ∧ claimedFailCond ("-5m".toList) = true
      ∧ ¬ (parseSimpleTime ("-5m".toList) = none ↔ claimedFailCond ("-5m".toList) = true) := by
  refine ⟨by decide, by decide, ?_⟩
  intro h
  exact absurd (h.mpr (by decide)) (by decide)

/-- C4 (amended): the parser fails exactly when the trimmed string is
empty, the portion before the final character is not accepted by Atoi
(optional sign, one or more digits, signed 64-bit range), or the final
character is not m, h or d case-insensitively; in particular the empty
string, 30, 30x and h all fail. -/
theorem C4_parse_failure_grammar :
    (∀ (s : List Char), parseSimpleTime s = none ↔ codeFailCond s = true)
      ∧ parseSimpleTime ("".toList) = none
      ∧ parseSimpleTime ("30".toList) = none
      ∧ parseSimpleTime ("30x".toList) = none
      ∧ parseSimpleTime ("h".toList) = none := by
  refine ⟨?_, by decide, by decide, by decide, by decide⟩
  intro s
  unfold parseSimpleTime codeFailCond
  cases hlast : (goTrimSpace s).getLast? with
  | none => simp
  | some u =>
    by_cases ha : atoiAccepts ((goTrimSpace s).dropLast) = true
    · simp only [goAtoi, ha, if_pos]
      by_cases hm : goToLowerAscii u = 'm'
      · simp [hm, ha]
      · by_cases hh : goToLowerAscii u = 'h'
        · simp [hm, hh, ha]
        · by_cases hd : goToLowerAscii u = 'd'
          · simp [hm, hh, hd, ha]
          · simp [hm, hh, hd, ha]
    · have ha' : atoiAccepts ((goTrimSpace s).dropLast) = false := by
        cases hx : atoiAccepts ((goTrimSpace s).dropLast)
        · rfl
        · exact absurd hx ha
      simp [goAtoi, ha']

/-- The decimal numeral of a natural number, via fuel-bounded recursion
(the fuel strictly exceeds the value, which strictly exceeds the digit
count). -/
def natNumeralAux : Nat → Nat → List Char
  | 0, _ => []
  | fuel + 1, n =>
    if n < 10 then [Nat.digitChar n]
    else natNumeralAux fuel (n / 10) ++ [Nat.digitChar (n % 10)]

def natNumeral (n : Nat) : List Char := natNumeralAux (n + 1) n

theorem digitsVal_concat (l : List Char) (c : Char) :
    digitsVal (l ++ [c]) = digitsVal l * 10 + (c.toNat - 48) := by
  unfold digitsVal
  rw [List.foldl_append]
  rfl

theorem digitChar_toNat {n : Nat} (h : n < 10) : (Nat.digitChar n).toNat = 48 + n := by
  interval_cases n <;> decide

theorem digitChar_isDec {n : Nat} (h : n < 10) : isDecDigit (Nat.digitChar n) = true := by
  interval_cases n <;> decide

theorem isDecDigit_not_sign {c : Char} (h : isDecDigit c = true) :
    ¬ c = '-' ∧ ¬ c = '+' := by
  rw [isDecDigit, decide_eq_true_eq] at h
  constructor
  · intro he
    subst he
    revert h
    decide
  · intro he
    subst he
    revert h
    decide

theorem isDecDigit_not_space {c : Char} (h : isDecDigit c = true) :
    goIsSpace c = false := by
  rw [isDecDigit, decide_eq_true_eq] at h
  rw [goIsSpace, decide_eq_false_iff_not]
  omega

theorem natNumeralAux_spec : ∀ (fuel n : Nat), n < fuel →
    (natNumeralAux fuel n).all isDecDigit = true
      ∧ digitsVal (natNumeralAux fuel n) = n
      ∧ ∃ hd tl, natNumeralAux fuel n = hd :: tl ∧ isDecDigit hd = true := by
  intro fuel
  induction fuel with
  | zero => intro n h; omega
  | succ f ih =>
    intro n h
    by_cases h10 : n < 10
    · refine ⟨?_, ?_, Nat.digitChar n, [], ?_, digitChar_isDec h10⟩
      · simp [natNumeralAux, h10, digitChar_isDec h10]
      · simp [natNumeralAux, h10, digitsVal, digitChar_toNat h10]
      · simp [natNumeralAux, h10]
    · have hdiv : n / 10 < f := by
        have h1 : n / 10 < n := Nat.div_lt_self (by omega) (by omega)
        omega
      obtain ⟨hall, hval, hd, tl, hcons, hdd⟩ := ih (n / 10) hdiv
      have hmod : n % 10 < 10 := Nat.mod_lt n (by omega)
      have hshape : natNumeralAux (f + 1) n
          = natNumeralAux f (n / 10) ++ [Nat.digitChar (n % 10)] := by
        simp [natNumeralAux, h10]
      refine ⟨?_, ?_, hd, tl ++ [Nat.digitChar (n % 10)], ?_, hdd⟩
      · rw [hshape, List.all_append]
        simp [hall, digitChar_isDec hmod]
      · rw [hshape, digitsVal_concat, hval, digitChar_toNat hmod]
        omega
      · rw [hshape, hcons]
        rfl

theorem natNumeral_spec (n : Nat) :
    (natNumeral n).all isDecDigit = true
      ∧ digitsVal (natNumeral n) = n
      ∧ ∃ hd tl, natNumeral n = hd :: tl ∧ isDecDigit hd = true :=
  natNumeralAux_spec (n + 1) n (by omega)

theorem dropWhile_eq_self_of_all {p : Char → Bool} :
    ∀ {l : List Char}, (∀ c ∈ l, p c = false) → l.dropWhile p = l := by
  intro l
  induction l with
  | nil => intro _; rfl
  | cons a t _ =>
    intro h
    simp [List.dropWhile_cons, h a (by simp)]

theorem goTrimSpace_eq_self {l : List Char} (h : ∀ c ∈ l, goIsSpace c = false) :
    goTrimSpace l = l := by
  unfold goTrimSpace
  rw [dropWhile_eq_self_of_all h]
  rw [dropWhile_eq_self_of_all (by intro c hc; exact h c (List.mem_reverse.mp hc))]
  exact List.reverse_reverse l

theorem wrap64_eq_self {x : Int} (h1 : -(2 ^ 63) ≤ x) (h2 : x ≤ 2 ^ 63 - 1) :
    wrap64 x = x := by
  unfold wrap64
  omega

theorem goAtoi_natNumeral (n : Nat) (hn : n ≤ 2 ^ 63 - 1) :
    goAtoi (natNumeral n) = some ((n : Int)) := by
  obtain ⟨hall, hval, hd, tl, hcons, hdd⟩ := natNumeral_spec n
  have hs := isDecDigit_not_sign hdd
  have haccept : atoiAccepts (natNumeral n) = true := by
    rw [hcons]
    simp only [atoiAccepts]
    rw [if_neg hs.1, if_neg hs.2]
    rw [← hcons]
    simp [hall, hval]
    omega
  have hv : atoiVal (natNumeral n) = (n : Int) := by
    rw [hcons]
    simp only [atoiVal]
    rw [if_neg hs.1, if_neg hs.2]
    rw [← hcons, hval]
  unfold goAtoi
  rw [haccept, hv]
  rfl

theorem parseSimpleTime_numeral (n : Nat) (u : Char) (hs : goIsSpace u = false)
    (hn : n ≤ 2 ^ 63 - 1) :
    parseSimpleTime (natNumeral n ++ [u]) =
      (if goToLowerAscii u = 'm' then some (wrap64 ((n : Int) * Minute))
       else if goToLowerAscii u = 'h' then some (wrap64 ((n : Int) * Hour))
       else if goToLowerAscii u = 'd' then some (wrap64 (wrap64 ((n : Int) * 24) * Hour))
       else none) := by
  obtain ⟨hall, _, _, _, _, _⟩ := natNumeral_spec n
  have hns : ∀ c ∈ natNumeral n ++ [u], goIsSpace c = false := by
    intro c hc
    rcases List.mem_append.mp hc with h | h
    · exact isDecDigit_not_space (List.all_eq_true.mp hall c h)
    · have hcu : c = u := by simpa using h
      rw [hcu]
      exact hs
  have ht : goTrimSpace (natNumeral n ++ [u]) = natNumeral n ++ [u] :=
    goTrimSpace_eq_self hns
  unfold parseSimpleTime
  rw [ht, List.getLast?_concat, List.dropLast_concat, goAtoi_natNumeral n hn]

/-- C5 counterexample: at n equal to 2 to the 63, whose decimal numeral
followed by the unit m is the input below, the parser fails with an Atoi
range error instead of producing n minutes, so the mapping claimed for
every non-negative integer does not hold. -/
theorem C5_parse_value_counterexample :
    parseSimpleTime ("9223372036854775808m".toList) = none := by decide

/-- C5 (amended): for every non-negative integer n whose resulting
duration fits the signed 64-bit nanosecond range, the parser maps the
numeral of n followed by m (or M) to n minutes, h (or H) to n hours and
d (or D) to n times 24 hours; the three concrete examples of the claim
hold as stated. -/
theorem C5_parse_value_mapping :
    (∀ (n : Nat) (u : Char), (u = 'm' ∨ u = 'M') → (n : Int) * Minute ≤ 2 ^ 63 - 1 →
        parseSimpleTime (natNumeral n ++ [u]) = some ((n : Int) * Minute))
    ∧ (∀ (n : Nat) (u : Char), (u = 'h' ∨ u = 'H') → (n : Int) * Hour ≤ 2 ^ 63 - 1 →
        parseSimpleTime (natNumeral n ++ [u]) = some ((n : Int) * Hour))
    ∧ (∀ (n : Nat) (u : Char), (u = 'd' ∨ u = 'D') → (n : Int) * 24 * Hour ≤ 2 ^ 63 - 1 →
        parseSimpleTime (natNumeral n ++ [u]) = some ((n : Int) * 24 * Hour))
    ∧ parseSimpleTime ("30m".toList) = some (30 * Minute)
    ∧ parseSimpleTime ("2h".toList) = some (2 * Hour)
    ∧ parseSimpleTime ("7d".toList) = some (168 * Hour) := by
  refine ⟨?_, ?_, ?_, by decide, by decide, by decide⟩
  · intro n u hu hle
    have h0 : (0 : Int) ≤ (n : Int) := Int.natCast_nonneg n
    have h1 : (n : Int) ≤ (n : Int) * Minute := by
      calc (n : Int) = (n : Int) * 1 := (mul_one _).symm
      _ ≤ (n : Int) * Minute := mul_le_mul_of_nonneg_left (by norm_num [Minute]) h0
    have hnn : n ≤ 2 ^ 63 - 1 := by
      have h2 := le_trans h1 hle
      omega
    have hsp : goIsSpace u = false := by rcases hu with h | h <;> rw [h] <;> decide
    have hlow : goToLowerAscii u = 'm' := by rcases hu with h | h <;> rw [h] <;> decide
    rw [parseSimpleTime_numeral n u hsp hnn]
    have hw : wrap64 ((n : Int) * Minute) = (n : Int) * Minute :=
      wrap64_eq_self
        (le_trans (by norm_num) (mul_nonneg h0 (by norm_num [Minute]))) hle
    simp [hlow, hw]
  · intro n u hu hle
    have h0 : (0 : Int) ≤ (n : Int) := Int.natCast_nonneg n
    have h1 : (n : Int) ≤ (n : Int) * Hour := by
      calc (n : Int) = (n : Int) * 1 := (mul_one _).symm
      _ ≤ (n : Int) * Hour := mul_le_mul_of_nonneg_left (by norm_num [Hour]) h0
    have hnn : n ≤ 2 ^ 63 - 1 := by
      have h2 := le_trans h1 hle
      omega
    have hsp : goIsSpace u = false := by rcases hu with h | h <;> rw [h] <;> decide
    have hlow : goToLowerAscii u = 'h' := by rcases hu with h | h <;> rw [h] <;> decide
    rw [parseSimpleTime_numeral n u hsp hnn]
    have hw : wrap64 ((n : Int) * Hour) = (n : Int) * Hour :=
      wrap64_eq_self
        (le_trans (by norm_num) (mul_nonneg h0 (by norm_num [Hour]))) hle
    simp [hlow, hw]
  · intro n u hu hle
    have h0 : (0 : Int) ≤ (n : Int) := Int.natCast_nonneg n
    have h024 : (0 : Int) ≤ (n : Int) * 24 := mul_nonneg h0 (by norm_num)
    have h1 : (n : Int) * 24 ≤ (n : Int) * 24 * Hour := by
      calc (n : Int) * 24 = (n : Int) * 24 * 1 := (mul_one _).symm
      _ ≤ (n : Int) * 24 * Hour := mul_le_mul_of_nonneg_left (by norm_num [Hour]) h024
    have h2 : (n : Int) ≤ (n : Int) * 24 := by
      calc (n : Int) = (n : Int) * 1 := (mul_one _).symm
      _ ≤ (n : Int) * 24 := mul_le_mul_of_nonneg_left (by norm_num) h0
    have hnn : n ≤ 2 ^ 63 - 1 := by
      have h3 := le_trans h2 (le_trans h1 hle)
      omega
    have h24 : (n : Int) * 24 ≤ 2 ^ 63 - 1 := le_trans h1 hle
    have hsp : goIsSpace u = false := by rcases hu with h | h <;> rw [h] <;> decide
    have hlow : goToLowerAscii u = 'd' := by rcases hu with h | h <;> rw [h] <;> decide
    rw [parseSimpleTime_numeral n u hsp hnn]
    have hw1 : wrap64 ((n : Int) * 24) = (n : Int) * 24 :=
      wrap64_eq_self (le_trans (by norm_num) h024) h24
    have hw2 : wrap64 ((n : Int) * 24 * Hour) = (n : Int) * 24 * Hour :=
      wrap64_eq_self
        (le_trans (by norm_num) (mul_nonneg h024 (by norm_num [Hour]))) hle
    simp [hlow, hw1, hw2]

theorem C5_parse_value_mapping_witness :
    (30 : Int) * Minute ≤ 2 ^ 63 - 1
      ∧ parseSimpleTime (natNumeral 30 ++ ['m']) = some ((30 : Int) * Minute) := by
  refine ⟨by decide, ?_⟩
  have h := C5_parse_value_mapping.1 30 'm' (Or.inl rfl) (by decide)
  simpa using h

/-! ## Projection layer of grafanaHandler -/

/-- The grouping map of grafanaHandler, represented as an association
list in first-insertion order (the Go map carries no order; only its
contents matter to the claims). Points are (value, timestampMillis); the
uint64 byte counts and the opaque percent payload are exact integers. -/
def hasKey (acc : List (String × List (Int × Int))) (k : String) : Bool :=
  acc.any (fun e => e.1 == k)

/-- Appending one datapoint to the series stored under a key. -/
def mapAppend (acc : List (String × List (Int × Int))) (k : String) (pt : Int × Int) :
    List (String × List (Int × Int)) :=
  acc.map (fun e => if e.1 == k then (e.1, e.2 ++ [pt]) else e)

/-- On first sight of a path, grafanaHandler creates the three empty
series for it (keyed by the usedKey existence check). -/
def initKeys (acc : List (String × List (Int × Int))) (path : String) :
    List (String × List (Int × Int)) :=
  if hasKey acc (path ++ " - Used") then acc
  else acc ++ [(path ++ " - Used", []), (path ++ " - Free", []), (path ++ " - Usage %", [])]

/-- One partition reading inside the projection loop: skip when a
non-empty path filter does not match, otherwise create the series if
needed and append the three datapoints. -/
def processPartition (ts : Int) (pathFilter : String)
    (acc : List (String × List (Int × Int))) (p : PartitionMetrics) :
    List (String × List (Int × Int)) :=
  if pathFilter ≠ "" ∧ p.Path ≠ pathFilter then acc
  else
    mapAppend (mapAppend (mapAppend (initKeys acc p.Path)
      (p.Path ++ " - Used") ((p.Used : Int), ts))
      (p.Path ++ " - Free") ((p.Free : Int), ts))
      (p.Path ++ " - Usage %") (p.UsagePercent, ts)

/-- The projection loop of grafanaHandler over the snapshots returned by
getRange: per snapshot the timestamp converted to milliseconds (int64
multiplication), per partition the filter-and-append step. -/
def projectSeries (metrics : List DiskMetrics) (pathFilter : String) :
    List (String × List (Int × Int)) :=
  metrics.foldl
    (fun acc m =>
      m.Partitions.foldl (processPartition (wrap64 (m.Timestamp * 1000)) pathFilter) acc)
    []

/-- Looking a series up by its name in the projection result. -/
def lookupSeries (acc : List (String × List (Int × Int))) (k : String) :
    Option (List (Int × Int)) :=
  (acc.find? (fun e => e.1 == k)).map (fun e => e.2)

/-- The contract of the Go standard sort.Slice call made by
sortDatapoints, from the library documentation: the output is some
permutation of the input that is sorted under the less function, which
here compares index 1, the timestamp; the sort is documented as NOT
guaranteed to be stable, so every such permutation is an admissible
output. -/
def sortDatapoints (input output : List (Int × Int)) : Prop :=
  input.Perm output ∧ List.Pairwise (fun p q : Int × Int => ¬ (q.2 < p.2)) output

/-- Stability with respect to equal timestamps: for every timestamp, the
subsequence of points carrying it is preserved. -/
def tieStable (input output : List (Int × Int)) : Prop :=
  ∀ ts : Int, input.filter (fun p => p.2 == ts) = output.filter (fun p => p.2 == ts)

theorem mapAppend_keys (acc : List (String × List (Int × Int))) (k : String)
    (pt : Int × Int) : (mapAppend acc k pt).map Prod.fst = acc.map Prod.fst := by
  unfold mapAppend
  rw [List.map_map]
  apply List.map_congr_left
  intro e _
  by_cases h : e.1 = k <;> simp [h]

theorem initKeys_keys (acc : List (String × List (Int × Int))) (path : String) :
    ∀ k ∈ (initKeys acc path).map Prod.fst,
      k ∈ acc.map Prod.fst ∨ k = path ++ " - Used" ∨ k = path ++ " - Free"
        ∨ k = path ++ " - Usage %" := by
  intro k hk
  unfold initKeys at hk
  by_cases hh : hasKey acc (path ++ " - Used") = true
  · rw [if_pos hh] at hk
    exact Or.inl hk
  · rw [if_neg hh] at hk
    rw [List.map_append, List.mem_append] at hk
    rcases hk with h | h
    · exact Or.inl h
    · simp at h
      rcases h with h | h | h
      · exact Or.inr (Or.inl h)
      · exact Or.inr (Or.inr (Or.inl h))
      · exact Or.inr (Or.inr (Or.inr h))

theorem processPartition_keys (ts : Int) (pathFilter : String)
    (acc : List (String × List (Int × Int))) (p : PartitionMetrics)
    (hfil : pathFilter ≠ "")
    (hP : ∀ k ∈ acc.map Prod.fst,
      k = pathFilter ++ " - Used" ∨ k = pathFilter ++ " - Free"
        ∨ k = pathFilter ++ " - Usage %") :
    ∀ k ∈ (processPartition ts pathFilter acc p).map Prod.fst,
      k = pathFilter ++ " - Used" ∨ k = pathFilter ++ " - Free"
        ∨ k = pathFilter ++ " - Usage %" := by
  intro k hk
  unfold processPartition at hk
  by_cases hskip : pathFilter ≠ "" ∧ p.Path ≠ pathFilter
  · rw [if_pos hskip] at hk
    exact hP k hk
  · have hpp : p.Path = pathFilter := by
      push_neg at hskip
      exact hskip hfil
    rw [if_neg hskip, mapAppend_keys, mapAppend_keys, mapAppend_keys] at hk
    rcases initKeys_keys acc p.Path k hk with h | h | h | h
    · exact hP k h
    · exact Or.inl (by rw [← hpp]; exact h)
    · exact Or.inr (Or.inl (by rw [← hpp]; exact h))
    · exact Or.inr (Or.inr (by rw [← hpp]; exact h))

theorem foldl_key_invariant (pathFilter : String) (hfil : pathFilter ≠ "") (ts : Int) :
    ∀ (ps : List PartitionMetrics) (acc : List (String × List (Int × Int))),
      (∀ k ∈ acc.map Prod.fst,
        k = pathFilter ++ " - Used" ∨ k = pathFilter ++ " - Free"
          ∨ k = pathFilter ++ " - Usage %") →
      (∀ k ∈ (ps.foldl (processPartition ts pathFilter) acc).map Prod.fst,
        k = pathFilter ++ " - Used" ∨ k = pathFilter ++ " - Free"
          ∨ k = pathFilter ++ " - Usage %") := by
  intro ps
  induction ps with
  | nil => intro acc hP; exact hP
  | cons p rest ih =>
    intro acc hP
    exact ih (processPartition ts pathFilter acc p)
      (processPartition_keys ts pathFilter acc p hfil hP)

theorem processPartition_skip (ts : Int) (pathFilter : String)
    (acc : List (String × List (Int × Int))) (p : PartitionMetrics)
    (h1 : pathFilter ≠ "") (h2 : p.Path ≠ pathFilter) :
    processPartition ts pathFilter acc p = acc := by
  unfold processPartition
  rw [if_pos ⟨h1, h2⟩]

theorem foldl_skip (ts : Int) (pathFilter : String) (h1 : pathFilter ≠ "") :
    ∀ (ps : List PartitionMetrics) (acc : List (String × List (Int × Int))),
      (∀ p ∈ ps, p.Path ≠ pathFilter) →
      ps.foldl (processPartition ts pathFilter) acc = acc := by
  intro ps
  induction ps with
  | nil => intro acc _; rfl
  | cons p rest ih =>
    intro acc hnp
    have hstep : (p :: rest).foldl (processPartition ts pathFilter) acc
        = rest.foldl (processPartition ts pathFilter) (processPartition ts pathFilter acc p) := rfl
    rw [hstep, processPartition_skip ts pathFilter acc p h1 (hnp p (by simp))]
    exact ih acc (fun q hq => hnp q (by simp [hq]))

/-- C6: with a non-empty path filter the projection mapping contains only
the three series of the partitions whose path equals the filter exactly;
a filter matching no partition yields the empty mapping, and the empty
input range yields the empty mapping. -/
theorem C6_projection_filter_exact :
    (∀ (ms : List DiskMetrics) (pathFilter : String), pathFilter ≠ "" →
        ∀ k ∈ (projectSeries ms pathFilter).map Prod.fst,
          k = pathFilter ++ " - Used" ∨ k = pathFilter ++ " - Free"
            ∨ k = pathFilter ++ " - Usage %")
    ∧ (∀ (ms : List DiskMetrics) (pathFilter : String), pathFilter ≠ "" →
        (∀ m ∈ ms, ∀ p ∈ m.Partitions, p.Path ≠ pathFilter) →
        projectSeries ms pathFilter = [])
    ∧ (∀ pathFilter : String, projectSeries [] pathFilter = []) := by
  refine ⟨?_, ?_, ?_⟩
  · intro ms pathFilter hfil
    unfold projectSeries
    generalize hacc : ([] : List (String × List (Int × Int))) = acc0
    have hP0 : ∀ k ∈ acc0.map Prod.fst,
        k = pathFilter ++ " - Used" ∨ k = pathFilter ++ " - Free"
          ∨ k = pathFilter ++ " - Usage %" := by
      rw [← hacc]
      intro k hk
      simp at hk
    clear hacc
    induction ms generalizing acc0 with
    | nil => exact hP0
    | cons m rest ih =>
      exact ih _ (foldl_key_invariant pathFilter hfil (wrap64 (m.Timestamp * 1000))
        m.Partitions acc0 hP0)
  · intro ms pathFilter hfil hnone
    unfold projectSeries
    induction ms with
    | nil => rfl
    | cons m rest ih =>
      have hstep : (m :: rest).foldl
          (fun acc m =>
            m.Partitions.foldl (processPartition (wrap64 (m.Timestamp * 1000)) pathFilter) acc)
          []
          = rest.foldl
            (fun acc m =>
              m.Partitions.foldl (processPartition (wrap64 (m.Timestamp * 1000)) pathFilter) acc)
            (m.Partitions.foldl (processPartition (wrap64 (m.Timestamp * 1000)) pathFilter) []) := rfl
      rw [hstep, foldl_skip (wrap64 (m.Timestamp * 1000)) pathFilter hfil m.Partitions []
        (fun p hp => hnone m (by simp) p hp)]
      exact ih (fun m hm p hp => hnone m (by simp [hm]) p hp)
  · intro pathFilter
    rfl

theorem C6_projection_filter_exact_witness :
    projectSeries [⟨1, [⟨"/data", 0, 0, 0, 0⟩]⟩] "/" = [] :=
  C6_projection_filter_exact.2.1 [⟨1, [⟨"/data", 0, 0, 0, 0⟩]⟩] "/"
    (by decide) (by decide)

/-- C3 counterexample: two snapshots captured in the same second put two
points with equal millisecond timestamps into the series named
/ - Used; the reversed list is an admissible output of the sort (it is a
sorted permutation, and the underlying library sort is documented as not
stable), yet it does not keep the insertion order of the tied points. -/
theorem C3_sort_stability_counterexample :
    lookupSeries
        (projectSeries [⟨5, [⟨"/", 0, 1, 0, 0⟩]⟩, ⟨5, [⟨"/", 0, 2, 0, 0⟩]⟩] "/")
        ("/" ++ " - Used") = some [(1, 5000), (2, 5000)]
      ∧ sortDatapoints [(1, 5000), (2, 5000)] [(2, 5000), (1, 5000)]
      ∧ ¬ tieStable [(1, 5000), (2, 5000)] [(2, 5000), (1, 5000)] := by
  refine ⟨by decide, ⟨List.Perm.swap _ _ _, by decide⟩, ?_⟩
  intro h
  have h5 := h 5000
  revert h5
  decide

/-- C3 (amended): every admissible output of the sort applied to a
projected series is a permutation of the points emitted for that series,
in nondecreasing timestamp order; stability at equal timestamps is not
guaranteed. -/
theorem C3_sort_sorted_perm (ms : List DiskMetrics) (pathFilter k : String)
    (raw out : List (Int × Int))
    (_hk : lookupSeries (projectSeries ms pathFilter) k = some raw)
    (hsort : sortDatapoints raw out) :
    raw.Perm out ∧ List.Pairwise (fun p q : Int × Int => p.2 ≤ q.2) out := by
  refine ⟨hsort.1, ?_⟩
  refine hsort.2.imp ?_
  intro p q hpq
  omega

theorem C3_sort_sorted_perm_witness :
    ([((7 : Int), (1000 : Int))].Perm [((7 : Int), (1000 : Int))])
      ∧ List.Pairwise (fun p q : Int × Int => p.2 ≤ q.2) [((7 : Int), (1000 : Int))] :=
  C3_sort_sorted_perm [⟨1, [⟨"/", 0, 7, 3, 50⟩]⟩] "/" ("/" ++ " - Used")
    [(7, 1000)] [(7, 1000)] (by decide) ⟨List.Perm.refl _, by decide⟩

/-! ## HTTP handlers -/

/-- The observable outcome of grafanaSimpleHandler: a 400 client error on
a parse failure, otherwise a temporary redirect to the range endpoint
carrying the path filter and the computed millisecond from/to query
parameters. -/
inductive SimpleResponse where
  | badRequest : SimpleResponse
  | redirect : String → Int → Int → SimpleResponse
  deriving DecidableEq

/-- Embeds grafanaSimpleHandler with the clock passed explicitly as the
UnixNano instant: parse the time expression; on failure 400; on success
from = now minus the duration and to = now, both converted to
milliseconds by Go truncating division by 1e6 (the 64-bit wrap of the
time subtraction is explicit). -/
def grafanaSimpleHandler (nowNs : Int) (path : String) (timeStr : List Char) :
    SimpleResponse :=
  match parseSimpleTime timeStr with
  | none => SimpleResponse.badRequest
  | some d =>
    SimpleResponse.redirect path (goQuo (wrap64 (nowNs - d)) 1000000) (goQuo nowNs 1000000)

theorem goQuo_nonneg_eq (a : Int) (h : 0 ≤ a) : goQuo a 1000000 = a / 1000000 := by
  unfold goQuo
  cases a with
  | ofNat m => rfl
  | negSucc m => exact absurd h (by simp)

/-- C8: against a fixed clock, a parsable time expression yields a
redirect whose millisecond parameters are now minus the duration and now;
for the expression 1h the two parameters differ by exactly 3600000
milliseconds; a parse failure yields a 400 client error and no redirect.
The realistic-clock hypotheses keep the int64 arithmetic away from the
wrap. -/
theorem C8_relative_redirect :
    (∀ (nowNs : Int) (path : String) (timeStr : List Char) (d : Int),
        parseSimpleTime timeStr = some d → 0 ≤ d → d ≤ nowNs → nowNs ≤ 2 ^ 63 - 1 →
        grafanaSimpleHandler nowNs path timeStr
          = SimpleResponse.redirect path (goQuo (nowNs - d) 1000000) (goQuo nowNs 1000000))
    ∧ (∀ (nowNs : Int) (path : String), 3600000000000 ≤ nowNs → nowNs ≤ 2 ^ 63 - 1 →
        grafanaSimpleHandler nowNs path ("1h".toList)
            = SimpleResponse.redirect path (goQuo (nowNs - 3600000000000) 1000000)
                (goQuo nowNs 1000000)
          ∧ goQuo nowNs 1000000 - goQuo (nowNs - 3600000000000) 1000000 = 3600000)
    ∧ (∀ (nowNs : Int) (path : String) (timeStr : List Char),
        parseSimpleTime timeStr = none →
        grafanaSimpleHandler nowNs path timeStr = SimpleResponse.badRequest) := by
  have hmain : ∀ (nowNs : Int) (path : String) (timeStr : List Char) (d : Int),
      parseSimpleTime timeStr = some d → 0 ≤ d → d ≤ nowNs → nowNs ≤ 2 ^ 63 - 1 →
      grafanaSimpleHandler nowNs path timeStr
        = SimpleResponse.redirect path (goQuo (nowNs - d) 1000000) (goQuo nowNs 1000000) := by
    intro nowNs path timeStr d hp h0 h1 h2
    unfold grafanaSimpleHandler
    rw [hp]
    show SimpleResponse.redirect path (goQuo (wrap64 (nowNs - d)) 1000000) (goQuo nowNs 1000000)
      = SimpleResponse.redirect path (goQuo (nowNs - d) 1000000) (goQuo nowNs 1000000)
    rw [wrap64_eq_self (by omega) (by omega)]
  refine ⟨hmain, ?_, ?_⟩
  · intro nowNs path hlo hhi
    have hp : parseSimpleTime ("1h".toList) = some 3600000000000 := by decide
    constructor
    · exact hmain nowNs path ("1h".toList) 3600000000000 hp (by omega) (by omega) hhi
    · rw [goQuo_nonneg_eq nowNs (by omega), goQuo_nonneg_eq (nowNs - 3600000000000) (by omega)]
      omega
  · intro nowNs path timeStr hp
    unfold grafanaSimpleHandler
    rw [hp]

theorem C8_relative_redirect_witness :
    grafanaSimpleHandler 7200000000000 "/" ("1h".toList)
      = SimpleResponse.redirect "/" 3600000 7200000 := by
  have h := C8_relative_redirect.2.1 7200000000000 "/" (by decide) (by decide)
  exact h.1.trans (by decide)

/-- The fields the OS usage probe reports for one partition. -/
structure UsageStat where
  Total : Nat
  Used : Nat
  Free : Nat
  UsedPercent : Int
  deriving DecidableEq

/-- Builds the partition readings of one collection cycle the way
collectMetrics does: a failed per-partition probe (none) is logged and
skipped, a successful one is appended in discovery order. -/
def buildPartitions (parts : List (String × Option UsageStat)) : List PartitionMetrics :=
  parts.filterMap (fun e =>
    e.2.map (fun u => ⟨e.1, u.Total, u.Used, u.Free, u.UsedPercent⟩))

/-- Embeds collectMetrics with the clock and the OS probe passed
explicitly: a failed partition enumeration (none) aborts the cycle
without touching the store; otherwise the snapshot built from the
successful per-partition probes is stamped with the current second and
appended to the store, and returned. The Prometheus gauge updates are
omitted because no claim observes them. -/
def collectMetrics (nowSec : Int) (probe : Option (List (String × Option UsageStat)))
    (s : MetricsStore) : MetricsStore × Option DiskMetrics :=
  match probe with
  | none => (s, none)
  | some parts =>
    (s.add ⟨nowSec, buildPartitions parts⟩, some ⟨nowSec, buildPartitions parts⟩)

/-- Embeds metricsHandler: every request performs a fresh collection; a
collection failure becomes a 500 with the store untouched, success
serializes the newly captured snapshot. -/
def metricsHandler (nowSec : Int) (probe : Option (List (String × Option UsageStat)))
    (s : MetricsStore) : MetricsStore × Option DiskMetrics :=
  collectMetrics nowSec probe s

theorem add_getLast (s : MetricsStore) (m : DiskMetrics) (h : 0 < s.maxSize) :
    (s.add m).data.getLast? = some m := by
  rw [add_data_eq]
  by_cases hc : s.data.length + 1 > s.maxSize
  · rw [if_pos hc]
    cases hd : s.data with
    | nil =>
      rw [hd] at hc
      simp at hc
      omega
    | cons a t =>
      exact List.getLast?_concat t
  · rw [if_neg hc]
    exact List.getLast?_concat _

theorem mem_of_getLast?_eq_some :
    ∀ (l : List DiskMetrics) (a : DiskMetrics), l.getLast? = some a → a ∈ l := by
  intro l
  induction l with
  | nil => intro a h; cases h
  | cons x t ih =>
    intro a h
    cases ht : t with
    | nil =>
      rw [ht] at h
      simp at h
      simp [h]
    | cons y t2 =>
      rw [ht] at h
      rw [List.getLast?_cons_cons] at h
      have hx := ih a (by rw [ht]; exact h)
      rw [ht] at hx
      rcases List.mem_cons.mp hx with h1 | h1
      · exact List.mem_cons.mpr (Or.inr (List.mem_cons.mpr (Or.inl h1)))
      · exact List.mem_cons.mpr (Or.inr (List.mem_cons.mpr (Or.inr h1)))

/-- C10: every successful request to the live-snapshot endpoint performs
a fresh collection and appends the captured snapshot to the store: the
new store is exactly the old one with the fresh snapshot added, the
response carries that snapshot, the store grows by one whenever it is
below capacity, and whenever every stored snapshot is older than the
current second the stored contents change. -/
theorem C10_live_snapshot_appends (nowSec : Int)
    (parts : List (String × Option UsageStat)) (s : MetricsStore) :
    (metricsHandler nowSec (some parts) s).1 = s.add ⟨nowSec, buildPartitions parts⟩
      ∧ (metricsHandler nowSec (some parts) s).2 = some ⟨nowSec, buildPartitions parts⟩
      ∧ (s.data.length < s.maxSize →
          (metricsHandler nowSec (some parts) s).1.data.length = s.data.length + 1)
      ∧ (0 < s.maxSize → (∀ m ∈ s.data, m.Timestamp < nowSec) →
          (metricsHandler nowSec (some parts) s).1.data ≠ s.data) := by
  refine ⟨rfl, rfl, ?_, ?_⟩
  · intro hlt
    show (s.add ⟨nowSec, buildPartitions parts⟩).data.length = s.data.length + 1
    rw [add_data_eq, if_neg (by omega)]
    simp
  · intro hcap hold heq
    have hlast : (s.add ⟨nowSec, buildPartitions parts⟩).data.getLast?
        = some ⟨nowSec, buildPartitions parts⟩ := add_getLast s _ hcap
    have heq2 : (s.add ⟨nowSec, buildPartitions parts⟩).data = s.data := heq
    rw [heq2] at hlast
    have hmem := mem_of_getLast?_eq_some s.data _ hlast
    have := hold _ hmem
    simp at this

theorem C10_live_snapshot_appends_witness :
    (metricsHandler 9 (some [("/", some ⟨100, 60, 40, 60⟩)]) (mkStore 5)).1
        = MetricsStore.add (mkStore 5) ⟨9, [⟨"/", 100, 60, 40, 60⟩]⟩
      ∧ (metricsHandler 9 (some [("/", some ⟨100, 60, 40, 60⟩)]) (mkStore 5)).1.data.length
          = 1 := by
  have h := C10_live_snapshot_appends 9 [("/", some ⟨100, 60, 40, 60⟩)] (mkStore 5)
  refine ⟨h.1.trans (by decide), ?_⟩
  have h3 := h.2.2.1 (by decide)
  exact h3.trans (by decide)
